import Mathlib

/-
Verification development for the spbu_timetable_ics_calendar repository
(src/main.py). The schedule scraper is shallowly embedded: HTML querying,
HTTP fetching and file IO are treated as external boundaries, exactly as the
specification's §1 prescribes. A scraped lesson row is modelled by the five
text/flag values the code extracts from it; a week fetch is modelled by the
resulting list of day blocks (or a non-200 failure); the persisted JSON cache
is modelled at the JSON-value level. Dates are modelled as day ordinals
(`Nat`) with day 0 falling on a Monday, so that `d % 7` matches Python's
`date.weekday()`; the ISO rendering of a date is injective, so keying the
cache by the ordinal is faithful to keying it by the ISO string.
Python exceptions are modelled with `Except`.
-/

namespace SpbuCal

/-- Python exceptions that the embedded code can raise: `ValueError`-style
parsing/construction failures and `KeyError` on a missing cache date. -/
inductive PyErr
  | value (msg : String)
  | key (d : Nat)
deriving DecidableEq, Repr

/-- Decidable equality of `Except` results, for concrete evaluation. -/
instance {ε α : Type} [DecidableEq ε] [DecidableEq α] : DecidableEq (Except ε α) :=
  fun x y =>
    match x, y with
    | .error a, .error b =>
      if h : a = b then .isTrue (by rw [h]) else .isFalse (by simp [h])
    | .ok a, .ok b =>
      if h : a = b then .isTrue (by rw [h]) else .isFalse (by simp [h])
    | .error _, .ok _ => .isFalse (by simp)
    | .ok _, .error _ => .isFalse (by simp)

/-! ## Text primitives (Python `str` operations used by main.py) -/

/-- Does `pat` occur as a prefix of `s`? (char lists) -/
def matchAt : List Char → List Char → Bool
  | [], _ => true
  | _ :: _, [] => false
  | p :: ps, c :: cs => p == c && matchAt ps cs

/-- Does `pat` occur as a substring of `s`? Models Python `pat in s`. -/
def subOccurs (pat : List Char) : List Char → Bool
  | [] => matchAt pat []
  | c :: cs => matchAt pat (c :: cs) || subOccurs pat cs

/-- Python `sub in s` on strings. -/
def strContains (s sub : String) : Bool :=
  subOccurs sub.toList s.toList

/-- One left-to-right, non-overlapping replacement pass, with fuel.
Models CPython `str.replace` for a non-empty pattern: scan left to right,
on a match emit the replacement and continue after the matched run. -/
def pyReplaceF : Nat → List Char → List Char → List Char → List Char
  | 0, s, _, _ => s
  | _ + 1, [], _, _ => []
  | fuel + 1, c :: cs, pat, rep =>
    if !pat.isEmpty && matchAt pat (c :: cs) then
      rep ++ pyReplaceF fuel (List.drop pat.length (c :: cs)) pat rep
    else
      c :: pyReplaceF fuel cs pat rep

/-- Python `s.replace(pat, rep)` for the non-empty patterns used by the code.
The fuel `s.length` always suffices: every step consumes at least one
character of the remaining input. -/
def pyReplace (s pat rep : List Char) : List Char :=
  pyReplaceF s.length s pat rep

/-- `CalendarGenerator.normalize_text` (main.py lines 62-67):
`text.replace('\n', '').replace('\r', '').replace(' ' * 20, '').replace('  ', '')`. -/
def normalize_text (text : String) : String :=
  String.mk
    (pyReplace
      (pyReplace
        (pyReplace
          (pyReplace text.toList [ '\n' ] [])
          [ '\r' ] [])
        (List.replicate 20 ' ') [])
      [ ' ', ' ' ] [])

/-! ## Integer / clock parsing (Python `int`, `str.split`) -/

/-- Python `s.split(sep)` for a single-character separator. -/
def splitOnChar (sep : Char) : List Char → List (List Char)
  | [] => [[]]
  | c :: cs =>
    let r := splitOnChar sep cs
    if c == sep then [] :: r
    else
      match r with
      | [] => [[c]]
      | g :: gs => (c :: g) :: gs

/-- Decimal digit accumulator for `pyInt`. -/
def parseNatDigits : Nat → List Char → Option Nat
  | acc, [] => some acc
  | acc, c :: cs =>
    if '0' ≤ c && c ≤ '9' then
      parseNatDigits (acc * 10 + (c.toNat - Char.toNat '0')) cs
    else
      none

/-- Python `int(s)` on the digit strings produced by the schedule page
(optional leading minus sign, then decimal digits); anything else raises
`ValueError`. -/
def pyInt (s : List Char) : Except PyErr Int :=
  match s with
  | [] => .error (.value "invalid literal for int")
  | '-' :: rest =>
    match rest, parseNatDigits 0 rest with
    | _ :: _, some n => .ok (-(n : Int))
    | _, _ => .error (.value "invalid literal for int")
  | _ =>
    match parseNatDigits 0 s with
    | some n => .ok ((n : Int))
    | none => .error (.value "invalid literal for int")

/-- `time_hours, time_minutes = map(int, part.split(':'))` (main.py 138-139):
exactly two `:`-separated fields, each parsed by `int`. -/
def parseClock (s : List Char) : Except PyErr (Int × Int) :=
  match splitOnChar ':' s with
  | [hs, ms] =>
    match pyInt hs, pyInt ms with
    | .ok h, .ok m => .ok (h, m)
    | .error e, _ => .error e
    | _, .error e => .error e
  | _ => .error (.value "unpack")

/-! ## Data model -/

/-- The `CalendarEventJSON` dataclass (main.py lines 17-27). `end` is a Lean
keyword, so the field is called `end_`. -/
structure CalendarEventJSON where
  name : String
  begin : String
  end_ : String
  status : String
  location : String
  description : String
  x_apple_travel_time : Option String := none
deriving DecidableEq, Repr

/-- The configuration values of `CalendarGenerator` that `get_calendar`'s
schedule-processing logic reads (main.py lines 52-60). -/
structure Config where
  ENGLISH_TEACHER_FULL_NAME : String
  IS_CANCEL_FIRST_ENGLISH_LESSON : Bool
  TIMEZONE_UTC_HOURS_SHIFT : Int
  FIRST_LESSON_X_TRAVEL_TIME : String

/-- What the code extracts from one `ul > li` lesson row of a day block:
the raw span texts of the four `div` sub-blocks (time, subject, location,
teacher) and whether the time span carries the `cancelled` class
(main.py lines 127-141). HTML querying itself is an external boundary. -/
structure LessonTag where
  timeText : String
  timeCancelled : Bool
  subjectText : String
  locationText : String
  teacherText : String
deriving DecidableEq, Repr

/-- A week's fetch outcome: non-200 response, or the list of day blocks
(`#accordion > div.panel.panel-default`), each a list of lesson rows. -/
inductive Response
  | failure
  | success (days : List (List LessonTag))
deriving DecidableEq, Repr

/-- A model `datetime`: day ordinal, hour, minute (already validated). -/
abbrev DT := Nat × Int × Int

/-- `datetime(year, month, day, hour, minute)` (main.py 152-165): raises
`ValueError` unless `0 ≤ hour ≤ 23` and `0 ≤ minute ≤ 59` (the day ordinal
is valid by construction). -/
def mkDatetime (d : Nat) (h m : Int) : Except PyErr DT :=
  if 0 ≤ h && h ≤ 23 && 0 ≤ m && m ≤ 59 then .ok (d, h, m)
  else .error (.value "datetime out of range")

/-- Decimal digits of a natural number, with fuel (kernel-reducible). -/
def natDigits : Nat → Nat → List Char
  | 0, _ => []
  | fuel + 1, n =>
    if n < 10 then [Char.ofNat (48 + n)]
    else natDigits fuel (n / 10) ++ [Char.ofNat (48 + n % 10)]

/-- Decimal rendering of an integer. -/
def intChars (n : Int) : List Char :=
  match n with
  | .ofNat m => natDigits (m + 1) m
  | .negSucc m => '-' :: natDigits (m + 2) (m + 1)

/-- `datetime.isoformat()` modelled as an injective rendering of the day
ordinal, hour and minute; the Gregorian year-month-day digit formatting is an
external concern, only injectivity of the rendering matters to the logic. -/
def dtIso (dt : DT) : String :=
  String.mk (natDigits (dt.1 + 1) dt.1 ++ 'T' :: intChars dt.2.1 ++ ':' :: intChars dt.2.2)

/-- The in-memory cache `calendar_json`, keyed by the day ordinal (standing
for the day's ISO date string, to which it is in bijection). -/
def Cache := List (Nat × List CalendarEventJSON)
deriving DecidableEq, Repr

/-- Python `dict` lookup on the association-list model. -/
def dictGet {α : Type} : List (Nat × α) → Nat → Option α
  | [], _ => none
  | (k, v) :: rest, key => if key = k then some v else dictGet rest key

/-- Python `dict` assignment: update in place if the key exists (preserving
insertion order), else append at the end. -/
def dictSet {α : Type} : List (Nat × α) → Nat → α → List (Nat × α)
  | [], key, value => [(key, value)]
  | (k, v) :: rest, key, value =>
    if key = k then (key, value) :: rest else (k, v) :: dictSet rest key value

/-! ## The scraping loop (main.py `get_calendar`, lines 95-186) -/

/-- The subject marker tested by the code (main.py 132, 144). -/
def englishMarker : String := "Английский язык"

/-- State threaded through one week's day/row loop: the cache being mutated
and the week's `is_first_english_lesson_cancelled` flag (main.py 121). -/
structure LoopSt where
  cache : Cache
  overridden : Bool
deriving DecidableEq, Repr

/-- Is the row discarded by the English-teacher filter (main.py 132-133)?
`'Английский язык' in subject and ENGLISH_TEACHER_FULL_NAME not in teacher`. -/
def rowFiltered (cfg : Config) (tag : LessonTag) : Bool :=
  strContains (normalize_text tag.subjectText) englishMarker &&
    !(strContains (normalize_text tag.teacherText) cfg.ENGLISH_TEACHER_FULL_NAME)

/-- The cache-independent part of one row iteration (main.py 127-180):
returns `none` when the row is discarded by the filter, otherwise the
`CalendarEventJSON` to append and the updated override flag; errors model the
uncaught Python exceptions of time parsing and `datetime` construction. -/
def rowEvent (cfg : Config) (d : Nat) (i : Nat) (ov : Bool) (tag : LessonTag) :
    Except PyErr (Option (CalendarEventJSON × Bool)) :=
  let subject := normalize_text tag.subjectText
  let teacher := normalize_text tag.teacherText
  if strContains subject englishMarker &&
      !(strContains teacher cfg.ENGLISH_TEACHER_FULL_NAME) then
    .ok none
  else
    match splitOnChar '–' (normalize_text tag.timeText).toList with
    | [tb, te] =>
      match parseClock tb, parseClock te with
      | .ok (bh, bm), .ok (eh, em) =>
        let isOverride := strContains subject englishMarker &&
          cfg.IS_CANCEL_FIRST_ENGLISH_LESSON && !ov
        let isCancelled := if isOverride then true else tag.timeCancelled
        let ov2 := if isOverride then true else ov
        match mkDatetime d (bh - cfg.TIMEZONE_UTC_HOURS_SHIFT) bm,
            mkDatetime d (eh - cfg.TIMEZONE_UTC_HOURS_SHIFT) em with
        | .ok bdt, .ok edt =>
          .ok (some (
            { name := subject
              begin := dtIso bdt
              end_ := dtIso edt
              status := if isCancelled then "CANCELLED" else "CONFIRMED"
              location := normalize_text tag.locationText
              description := "Преподаватель: " ++ teacher
              x_apple_travel_time :=
                if i = 0 then some cfg.FIRST_LESSON_X_TRAVEL_TIME else none },
            ov2))
        | .error e, _ => .error e
        | _, .error e => .error e
      | .error e, _ => .error e
      | _, .error e => .error e
    | _ => .error (.value "unpack time range")

/-- One full row iteration including the cache side effects (main.py
169-180): on document index 0 the day's entry is reset to `[]`; the event is
appended to the day's entry, raising `KeyError` when the date is absent. -/
def processRow (cfg : Config) (d : Nat) (i : Nat) (st : LoopSt) (tag : LessonTag) :
    Except PyErr LoopSt :=
  match rowEvent cfg d i st.overridden tag with
  | .error e => .error e
  | .ok none => .ok st
  | .ok (some (ev, ov2)) =>
    match dictGet (if i = 0 then dictSet st.cache d [] else st.cache) d with
    | none => .error (.key d)
    | some evs =>
      .ok ⟨dictSet (if i = 0 then dictSet st.cache d [] else st.cache) d (evs ++ [ev]), ov2⟩

/-- `for i, lesson_tag in enumerate(day_tag.select('ul > li'))` (main.py
125): iterate the rows of one day block with their document indices. -/
def processRows (cfg : Config) (d : Nat) : Nat → LoopSt → List LessonTag →
    Except PyErr LoopSt
  | _, st, [] => .ok st
  | i, st, tag :: rest =>
    match processRow cfg d i st tag with
    | .error e => .error e
    | .ok st2 => processRows cfg d (i + 1) st2 rest

/-- `for day_tag in day_tags` (main.py 123-182): process each day block at
the running date, then advance the date by one day; returns the final date
and loop state. -/
def processDayBlocks (cfg : Config) : Nat → LoopSt → List (List LessonTag) →
    Except PyErr (Nat × LoopSt)
  | d, st, [] => .ok (d, st)
  | d, st, rows :: rest =>
    match processRows cfg d 0 st rows with
    | .error e => .error e
    | .ok st2 => processDayBlocks cfg (d + 1) st2 rest

/-- One successful week fetch (main.py 114-184): with no day blocks the
cursor moves forward one week and nothing else happens; otherwise the week's
override flag starts at `False`, the day blocks are processed, and the cursor
snaps forward by `7 - weekday` days. -/
def processWeek (cfg : Config) (d : Nat) (c : Cache) (blocks : List (List LessonTag)) :
    Except PyErr (Nat × Cache) :=
  match blocks with
  | [] => .ok (d + 7, c)
  | _ :: _ =>
    match processDayBlocks cfg d ⟨c, false⟩ blocks with
    | .error e => .error e
    | .ok (d2, st2) => .ok (d2 + (7 - d2 % 7), st2.cache)

/-- `for _ in range(WEEKS_TO_FETCH)` (main.py 101-184): the fetch outcomes
are consumed in order, one per iteration; a non-200 response breaks out of
the loop, keeping the cache merged so far. -/
def runCycle (cfg : Config) : Nat → Cache → List Response →
    Except PyErr (Nat × Cache)
  | d, c, [] => .ok (d, c)
  | d, c, .failure :: _ => .ok (d, c)
  | d, c, .success days :: rest =>
    match processWeek cfg d c days with
    | .error e => .error e
    | .ok (d2, c2) => runCycle cfg d2 c2 rest

/-! ## Persisted JSON cache (main.py `load_calendar_json` / `save_calendar_json`,
lines 69-93). The `json` library's value-level dump/parse is the external
boundary; the file content is modelled by its parse outcome: `none` for
content that raises `JSONDecodeError` (including the empty file created for
an absent one), `some v` for the parsed JSON value. -/

/-- JSON values, as produced by `json.load`. -/
inductive Json
  | null
  | jstr (s : String)
  | jnum (n : Int)
  | arr (xs : List Json)
  | obj (fields : List (String × Json))

/-- The cache as typed by the code: ISO date string keys, lists of events. -/
def JCache := List (String × List CalendarEventJSON)
deriving DecidableEq, Repr

/-- `dataclass_asdict(event)` followed by `json.dump`: every field is
emitted, `None` becomes `null` (main.py 85-93). -/
def eventToJson (e : CalendarEventJSON) : Json :=
  .obj
    [("name", .jstr e.name), ("begin", .jstr e.begin), ("end", .jstr e.end_),
     ("status", .jstr e.status), ("location", .jstr e.location),
     ("description", .jstr e.description),
     ("x_apple_travel_time",
       match e.x_apple_travel_time with
       | some s => .jstr s
       | none => .null)]

/-- `save_calendar_json` (main.py 85-93): the JSON value written to the
cache file. -/
def saveCalendarJson (data : JCache) : Json :=
  .obj (data.map (fun p => (p.1, .arr (p.2.map eventToJson))))

/-- Field lookup in a JSON object. -/
def jLookup : List (String × Json) → String → Option Json
  | [], _ => none
  | (k, v) :: rest, key => if key = k then some v else jLookup rest key

/-- The keyword arguments `CalendarEventJSON.__init__` accepts. -/
def allowedEventKeys : List String :=
  ["name", "begin", "end", "status", "location", "description",
   "x_apple_travel_time"]

/-- `CalendarEventJSON(**event)` (main.py 78): every key must be a known
field, the six required fields must be present (string-valued in any content
the program itself writes), and the optional travel-time field may be absent
or `null`; anything else raises `TypeError`, which `load_calendar_json` does
not catch. -/
def decodeEvent : Json → Except String CalendarEventJSON
  | .obj fs =>
    if (fs.map (fun p => p.1)).all (fun k => allowedEventKeys.contains k) then
      match jLookup fs "name", jLookup fs "begin", jLookup fs "end",
          jLookup fs "status", jLookup fs "location", jLookup fs "description" with
      | some (.jstr n), some (.jstr b), some (.jstr e), some (.jstr st),
          some (.jstr l), some (.jstr ds) =>
        match jLookup fs "x_apple_travel_time" with
        | none => .ok ⟨n, b, e, st, l, ds, none⟩
        | some .null => .ok ⟨n, b, e, st, l, ds, none⟩
        | some (.jstr x) => .ok ⟨n, b, e, st, l, ds, some x⟩
        | some _ => .error "TypeError"
      | _, _, _, _, _, _ => .error "TypeError: missing argument"
    else .error "TypeError: unexpected keyword argument"
  | _ => .error "TypeError: argument after ** must be a mapping"

/-- Decode each element of a JSON array in order, propagating the first
failure (the list comprehension of main.py 78). -/
def decodeList : List Json → Except String (List CalendarEventJSON)
  | [] => .ok []
  | j :: js =>
    match decodeEvent j with
    | .error e => .error e
    | .ok a =>
      match decodeList js with
      | .error e => .error e
      | .ok as2 => .ok (a :: as2)

/-- The dict comprehension over `load(f).items()` (main.py 77-80). -/
def decodeEntries : List (String × Json) → Except String JCache
  | [] => .ok []
  | (k, v) :: rest =>
    match v with
    | .arr xs =>
      match decodeList xs with
      | .error e => .error e
      | .ok evs =>
        match decodeEntries rest with
        | .error e => .error e
        | .ok tail => .ok ((k, evs) :: tail)
    | _ => .error "TypeError: not a list of events"

/-- `load(f).items()` requires the top-level value to be an object
(`AttributeError` otherwise), then each value is decoded. -/
def decodeCache : Json → Except String JCache
  | .obj entries => decodeEntries entries
  | _ => .error "AttributeError: no attribute items"

/-- `load_calendar_json` (main.py 69-83) on the parse outcome of the file
content: a `JSONDecodeError` (absent/empty/unparsable file) is caught and
yields the empty mapping; any other exception of the comprehension
propagates. -/
def loadCalendarJson (parsed : Option Json) : Except String JCache :=
  match parsed with
  | none => .ok []
  | some j => decodeCache j

/-! ## Environment configuration (main.py `set_env_var`, lines 32-40) -/

/-- The Python values that flow through `set_env_var`: the string from
`environ.get` or the non-string default. -/
inductive PyVal
  | pstr (s : String)
  | pbool (b : Bool)

/-- Python `bool()` on those values: a string is truthy iff non-empty. -/
def pyBool : PyVal → Bool
  | .pstr s => !(s == "")
  | .pbool b => b

/-- `set_env_var(name, default_value, value_converter)` (main.py 32-40):
`environ.get` yields the variable's string when set, else the default;
`None` raises; otherwise the converter is applied. -/
def set_env_var {α : Type} (envValue : Option String) (defaultValue : Option PyVal)
    (conv : PyVal → α) : Except String α :=
  match envValue with
  | some s => .ok (conv (.pstr s))
  | none =>
    match defaultValue with
    | some dv => .ok (conv dv)
    | none => .error "is not set"

/-- `self.set_env_var('IS_CANCEL_FIRST_ENGLISH_LESSON', False, bool)`
(main.py 55), as a function of the environment variable's value. -/
def isCancelFirstEnglishLessonFlag (env : Option String) : Except String Bool :=
  set_env_var env (some (PyVal.pbool false)) pyBool

/-! ## Derived predicates and concrete sample data -/

/-- A day block whose row at document index 0 (if any) survives the
English-teacher filter, so that the block's processing starts with the
`i == 0` reset of the day's cache entry. -/
def firstRowKeeps (cfg : Config) (rows : List LessonTag) : Bool :=
  match rows with
  | [] => true
  | r :: _ => !rowFiltered cfg r

/-- Sample configuration with the cancel-first-English option enabled. -/
def cfg1 : Config :=
  { ENGLISH_TEACHER_FULL_NAME := "Иванова"
    IS_CANCEL_FIRST_ENGLISH_LESSON := true
    TIMEZONE_UTC_HOURS_SHIFT := 0
    FIRST_LESSON_X_TRAVEL_TIME := "PT15M" }

/-- Sample configuration with the cancel-first-English option disabled. -/
def cfg2 : Config :=
  { ENGLISH_TEACHER_FULL_NAME := "Иванова"
    IS_CANCEL_FIRST_ENGLISH_LESSON := false
    TIMEZONE_UTC_HOURS_SHIFT := 0
    FIRST_LESSON_X_TRAVEL_TIME := "PT15M" }

/-- An English row taught by the configured teacher, whose page-derived
cancellation marker is `b`. -/
def engRowB (b : Bool) : LessonTag :=
  { timeText := "10:00–11:30"
    timeCancelled := b
    subjectText := "Английский язык"
    locationText := "а1"
    teacherText := "Иванова Анна" }

/-- An English row taught by a different teacher: discarded by the filter. -/
def engOtherRow : LessonTag :=
  { timeText := "12:00–13:30"
    timeCancelled := false
    subjectText := "Английский язык"
    locationText := "а2"
    teacherText := "Петрова Мария" }

/-- A non-English row with no cancellation marker. -/
def normalRow : LessonTag :=
  { timeText := "10:00–11:30"
    timeCancelled := false
    subjectText := "Математика"
    locationText := "а3"
    teacherText := "Сидорова Ольга" }

/-- The event `processRow` appends for `normalRow` at a document index
other than 0, on day `d` (configuration `cfg2`). -/
def normalRowEvent (d : Nat) : CalendarEventJSON :=
  { name := "Математика"
    begin := dtIso (d, 10, 0)
    end_ := dtIso (d, 11, 30)
    status := "CONFIRMED"
    location := "а3"
    description := "Преподаватель: Сидорова Ольга"
    x_apple_travel_time := none }

/-- Cache after one week whose two day blocks each hold one English row with
page-derived cancellation markers `b1`, `b2` (option enabled). -/
def c1week (b1 b2 : Bool) : Cache :=
  match processWeek cfg1 0 [] [[engRowB b1], [engRowB b2]] with
  | .ok p => p.2
  | .error _ => []

/-- Cache after a cycle fetching two consecutive weeks, each with a single
not-page-cancelled English lesson (option enabled). -/
def c1twoWeeks : Cache :=
  match runCycle cfg1 0 [] [.success [[engRowB false]], .success [[engRowB false]]] with
  | .ok p => p.2
  | .error _ => []

/-- A stale event left in the cache by an earlier cycle. -/
def oldEv : CalendarEventJSON :=
  { name := "stale"
    begin := "b0"
    end_ := "e0"
    status := "CONFIRMED"
    location := "loc"
    description := "desc"
    x_apple_travel_time := none }

/-- Processing one day block whose row 0 is a filtered English row and whose
row 1 is retained, over a cache that still holds a stale entry for the day. -/
def c2run : Except PyErr LoopSt :=
  processRows cfg2 0 0 ⟨[(0, [oldEv])], false⟩ [engOtherRow, normalRow]

/-- A week markup whose single day block starts with a filtered English row. -/
def c4blocks : List (List LessonTag) := [[engOtherRow, normalRow]]

/-- Cache after feeding `c4blocks` once, starting from a cache that already
has an (empty) entry for the day. -/
def c4cache1 : Cache :=
  match processWeek cfg2 0 [(0, [])] c4blocks with
  | .ok p => p.2
  | .error _ => []

/-- Cache after feeding the same week markup a second time. -/
def c4cache2 : Cache :=
  match processWeek cfg2 0 c4cache1 c4blocks with
  | .ok p => p.2
  | .error _ => []

/-- Cache after one well-formed week (one day block, one retained row). -/
def c4witCache : Cache :=
  match processWeek cfg2 0 [] [[normalRow]] with
  | .ok p => p.2
  | .error _ => []

/-- Cache after a cycle whose single fetched week has one day block. -/
def c7res : Cache :=
  match runCycle cfg2 0 [] [Response.success [[normalRow]]] with
  | .ok p => p.2
  | .error _ => []

/-! ## Helper lemmas: the dictionary model -/

/-- Looking up the key just assigned yields the assigned value. -/
theorem dictGet_dictSet_self {α : Type} (l : List (Nat × α)) (k : Nat) (v : α) :
    dictGet (dictSet l k v) k = some v := by
  induction l with
  | nil => simp [dictGet, dictSet]
  | cons p rest ih =>
    rcases p with ⟨k0, v0⟩
    by_cases hk : k = k0
    · simp [dictSet, hk, dictGet]
    · simp [dictSet, hk, dictGet, ih]

/-- Assignment does not disturb other keys. -/
theorem dictGet_dictSet_ne {α : Type} (l : List (Nat × α)) (k k2 : Nat) (v : α)
    (h : k2 ≠ k) : dictGet (dictSet l k v) k2 = dictGet l k2 := by
  induction l with
  | nil => simp [dictGet, dictSet, h]
  | cons p rest ih =>
    rcases p with ⟨k0, v0⟩
    by_cases hk : k = k0
    · subst hk
      simp [dictSet, dictGet, h]
    · by_cases hk2 : k2 = k0
      · simp [dictSet, dictGet, hk, hk2]
      · simp [dictSet, dictGet, hk, hk2, ih]

/-- Two successive assignments to one key collapse to the second. -/
theorem dictSet_dictSet {α : Type} (l : List (Nat × α)) (k : Nat) (v w : α) :
    dictSet (dictSet l k v) k w = dictSet l k w := by
  induction l with
  | nil => simp [dictSet]
  | cons p rest ih =>
    rcases p with ⟨k0, v0⟩
    by_cases hk : k = k0
    · simp [dictSet, hk]
    · simp [dictSet, hk, ih]

/-- Re-assigning the value a key already holds leaves the dict unchanged. -/
theorem dictSet_self {α : Type} (l : List (Nat × α)) (k : Nat) (v : α)
    (h : dictGet l k = some v) : dictSet l k v = l := by
  induction l with
  | nil => simp [dictGet] at h
  | cons p rest ih =>
    rcases p with ⟨k0, v0⟩
    by_cases hk : k = k0
    · subst hk
      simp [dictGet] at h
      simp [dictSet, h]
    · simp [dictGet, hk] at h
      simp [dictSet, hk, ih h]

/-! ## Helper lemmas: `pyReplace` character accounting -/

/-- A removal pass introduces no new characters. -/
theorem mem_of_mem_pyReplaceF (ch : Char) (pat : List Char) :
    ∀ (fuel : Nat) (s : List Char), ch ∈ pyReplaceF fuel s pat [] → ch ∈ s := by
  intro fuel
  induction fuel with
  | zero => intro s h; simpa [pyReplaceF] using h
  | succ f ih =>
    intro s h
    match s with
    | [] => simp [pyReplaceF] at h
    | a :: as =>
      rw [pyReplaceF] at h
      by_cases hg : (!pat.isEmpty && matchAt pat (a :: as)) = true
      · rw [if_pos hg] at h
        simp only [List.nil_append] at h
        exact List.drop_subset _ _ (ih _ h)
      · rw [if_neg hg] at h
        rcases List.mem_cons.mp h with h1 | h1
        · exact List.mem_cons.mpr (Or.inl h1)
        · exact List.mem_cons.mpr (Or.inr (ih _ h1))

/-- Removing a single-character pattern removes every occurrence of it. -/
theorem not_mem_pyReplaceF_single (a : Char) :
    ∀ (fuel : Nat) (s : List Char), s.length ≤ fuel → a ∉ pyReplaceF fuel s [a] [] := by
  intro fuel
  induction fuel with
  | zero =>
    intro s hs
    have : s = [] := List.eq_nil_of_length_eq_zero (Nat.le_zero.mp hs)
    subst this
    simp [pyReplaceF]
  | succ f ih =>
    intro s hs
    match s with
    | [] => simp [pyReplaceF]
    | b :: bs =>
      rw [pyReplaceF]
      by_cases hab : a = b
      · subst hab
        have hg : (!(List.isEmpty [a]) && matchAt [a] (a :: bs)) = true := by
          simp [matchAt, List.isEmpty]
        rw [if_pos hg]
        simp only [List.nil_append, List.length_singleton, List.drop_one,
          List.tail_cons]
        exact ih bs (by simpa using Nat.le_of_succ_le_succ hs)
      · have hg : (!(List.isEmpty [a]) && matchAt [a] (b :: bs)) = true → False := by
          simp [matchAt, List.isEmpty, hab]
        rw [if_neg hg]
        intro hmem
        rcases List.mem_cons.mp hmem with h1 | h1
        · exact hab h1
        · exact ih bs (by simpa using Nat.le_of_succ_le_succ hs) h1

/-! ## Helper lemmas: row and day processing -/

/-- A row iteration yields no event only when the English-teacher filter
discards the row. -/
theorem rowEvent_none (cfg : Config) (d i : Nat) (ov : Bool) (tag : LessonTag)
    (h : rowEvent cfg d i ov tag = .ok none) : rowFiltered cfg tag = true := by
  by_cases hf : (strContains (normalize_text tag.subjectText) englishMarker &&
      !(strContains (normalize_text tag.teacherText) cfg.ENGLISH_TEACHER_FULL_NAME)) = true
  · simpa [rowFiltered] using hf
  · exfalso
    unfold rowEvent at h
    rw [if_neg hf] at h
    repeat' split at h
    all_goals simp_all

/-- Away from document index 0, one row iteration acts on the day's entry
alone: run from two caches agreeing on the day's entry, it fails identically
or appends the same event to both. -/
theorem processRow_sim (cfg : Config) (d i : Nat) (evs : List CalendarEventJSON)
    (ov : Bool) (c1 c2 : Cache) (tag : LessonTag) (hi : i ≠ 0) :
    (∃ e, processRow cfg d i ⟨dictSet c1 d evs, ov⟩ tag = .error e ∧
          processRow cfg d i ⟨dictSet c2 d evs, ov⟩ tag = .error e) ∨
    (processRow cfg d i ⟨dictSet c1 d evs, ov⟩ tag = .ok ⟨dictSet c1 d evs, ov⟩ ∧
     processRow cfg d i ⟨dictSet c2 d evs, ov⟩ tag = .ok ⟨dictSet c2 d evs, ov⟩) ∨
    (∃ ev ov2,
      processRow cfg d i ⟨dictSet c1 d evs, ov⟩ tag =
        .ok ⟨dictSet c1 d (evs ++ [ev]), ov2⟩ ∧
      processRow cfg d i ⟨dictSet c2 d evs, ov⟩ tag =
        .ok ⟨dictSet c2 d (evs ++ [ev]), ov2⟩) := by
  cases hre : rowEvent cfg d i ov tag with
  | error e =>
    left
    exact ⟨e, by simp [processRow, hre], by simp [processRow, hre]⟩
  | ok o =>
    cases o with
    | none =>
      right; left
      exact ⟨by simp [processRow, hre], by simp [processRow, hre]⟩
    | some p =>
      rcases p with ⟨ev, ov2⟩
      right; right
      refine ⟨ev, ov2, ?_, ?_⟩ <;>
        simp [processRow, hre, hi, dictGet_dictSet_self, dictSet_dictSet]

/-- `processRow_sim`, extended along the remaining rows of a day block. -/
theorem processRows_sim (cfg : Config) (d : Nat) :
    ∀ (rows : List LessonTag) (i : Nat) (evs : List CalendarEventJSON)
      (ov : Bool) (c1 c2 : Cache), i ≠ 0 →
    (∃ e, processRows cfg d i ⟨dictSet c1 d evs, ov⟩ rows = .error e ∧
          processRows cfg d i ⟨dictSet c2 d evs, ov⟩ rows = .error e) ∨
    (∃ evs2 ov2,
      processRows cfg d i ⟨dictSet c1 d evs, ov⟩ rows = .ok ⟨dictSet c1 d evs2, ov2⟩ ∧
      processRows cfg d i ⟨dictSet c2 d evs, ov⟩ rows = .ok ⟨dictSet c2 d evs2, ov2⟩) := by
  intro rows
  induction rows with
  | nil =>
    intro i evs ov c1 c2 hi
    right
    exact ⟨evs, ov, rfl, rfl⟩
  | cons tag rest ih =>
    intro i evs ov c1 c2 hi
    rcases processRow_sim cfg d i evs ov c1 c2 tag hi with
      ⟨e, h1, h2⟩ | ⟨h1, h2⟩ | ⟨ev, ov2, h1, h2⟩
    · left
      exact ⟨e, by simp [processRows, h1], by simp [processRows, h2]⟩
    · rcases ih (i + 1) evs ov c1 c2 (Nat.succ_ne_zero i) with
        ⟨e, g1, g2⟩ | ⟨evs2, ov2, g1, g2⟩
      · left
        exact ⟨e, by simp [processRows, h1, g1], by simp [processRows, h2, g2]⟩
      · right
        exact ⟨evs2, ov2, by simp [processRows, h1, g1], by simp [processRows, h2, g2]⟩
    · rcases ih (i + 1) (evs ++ [ev]) ov2 c1 c2 (Nat.succ_ne_zero i) with
        ⟨e, g1, g2⟩ | ⟨evs2, ov3, g1, g2⟩
      · left
        exact ⟨e, by simp [processRows, h1, g1], by simp [processRows, h2, g2]⟩
      · right
        exact ⟨evs2, ov3, by simp [processRows, h1, g1], by simp [processRows, h2, g2]⟩

/-- A whole day block whose first row survives the filter overwrites the
day's entry with a value independent of the starting cache (and leaves the
override flag's evolution cache-independent as well). -/
theorem processRows_day_sim (cfg : Config) (d : Nat) (rows : List LessonTag)
    (hk : firstRowKeeps cfg rows = true) (ov : Bool) (c1 c2 : Cache) :
    (∃ e, processRows cfg d 0 ⟨c1, ov⟩ rows = .error e ∧
          processRows cfg d 0 ⟨c2, ov⟩ rows = .error e) ∨
    (rows = [] ∧ processRows cfg d 0 ⟨c1, ov⟩ rows = .ok ⟨c1, ov⟩ ∧
                 processRows cfg d 0 ⟨c2, ov⟩ rows = .ok ⟨c2, ov⟩) ∨
    (∃ evs2 ov2,
      processRows cfg d 0 ⟨c1, ov⟩ rows = .ok ⟨dictSet c1 d evs2, ov2⟩ ∧
      processRows cfg d 0 ⟨c2, ov⟩ rows = .ok ⟨dictSet c2 d evs2, ov2⟩) := by
  cases rows with
  | nil =>
    right; left
    exact ⟨rfl, rfl, rfl⟩
  | cons tag rest =>
    cases hre : rowEvent cfg d 0 ov tag with
    | error e =>
      left
      exact ⟨e, by simp [processRows, processRow, hre], by simp [processRows, processRow, hre]⟩
    | ok o =>
      cases o with
      | none =>
        exfalso
        have := rowEvent_none cfg d 0 ov tag hre
        simp [firstRowKeeps, this] at hk
      | some p =>
        rcases p with ⟨ev, ov2⟩
        have hstep : ∀ c : Cache, processRow cfg d 0 ⟨c, ov⟩ tag =
            .ok ⟨dictSet c d [ev], ov2⟩ := by
          intro c
          simp [processRow, hre, dictGet_dictSet_self, dictSet_dictSet]
        rcases processRows_sim cfg d rest 1 [ev] ov2 c1 c2 (by omega) with
          ⟨e, g1, g2⟩ | ⟨evs2, ov3, g1, g2⟩
        · left
          exact ⟨e, by simp [processRows, hstep, g1], by simp [processRows, hstep, g2]⟩
        · right; right
          exact ⟨evs2, ov3, by simp [processRows, hstep, g1], by simp [processRows, hstep, g2]⟩

/-- One row iteration touches no cache key other than the current day. -/
theorem processRow_frame (cfg : Config) (d i : Nat) (st : LoopSt) (tag : LessonTag)
    (st2 : LoopSt) (h : processRow cfg d i st tag = .ok st2) (k : Nat) (hk : k ≠ d) :
    dictGet st2.cache k = dictGet st.cache k := by
  unfold processRow at h
  cases hre : rowEvent cfg d i st.overridden tag with
  | error e => rw [hre] at h; simp at h
  | ok o =>
    rw [hre] at h
    cases o with
    | none =>
      simp only [Except.ok.injEq] at h
      rw [← h]
    | some p =>
      rcases p with ⟨ev, ov2⟩
      simp only at h
      cases hg : dictGet (if i = 0 then dictSet st.cache d [] else st.cache) d with
      | none => rw [hg] at h; simp at h
      | some evs =>
        rw [hg] at h
        simp only [Except.ok.injEq] at h
        rw [← h]
        by_cases hi : i = 0 <;>
          simp [hi, dictGet_dictSet_ne _ _ _ _ hk]

/-- A day block touches no cache key other than the current day. -/
theorem processRows_frame (cfg : Config) (d : Nat) :
    ∀ (rows : List LessonTag) (i : Nat) (st st2 : LoopSt),
    processRows cfg d i st rows = .ok st2 →
    ∀ k, k ≠ d → dictGet st2.cache k = dictGet st.cache k := by
  intro rows
  induction rows with
  | nil =>
    intro i st st2 h k hk
    simp only [processRows, Except.ok.injEq] at h
    rw [← h]
  | cons tag rest ih =>
    intro i st st2 h k hk
    rw [processRows] at h
    cases hp : processRow cfg d i st tag with
    | error e => rw [hp] at h; simp at h
    | ok st1 =>
      rw [hp] at h
      calc dictGet st2.cache k = dictGet st1.cache k := ih (i + 1) st1 st2 h k hk
        _ = dictGet st.cache k := processRow_frame cfg d i st tag st1 hp k hk

/-- The day loop advances the date by exactly one day per day block. -/
theorem processDayBlocks_len (cfg : Config) :
    ∀ (blocks : List (List LessonTag)) (d : Nat) (st : LoopSt) (d2 : Nat) (st2 : LoopSt),
    processDayBlocks cfg d st blocks = .ok (d2, st2) → d2 = d + blocks.length := by
  intro blocks
  induction blocks with
  | nil =>
    intro d st d2 st2 h
    simp only [processDayBlocks, Except.ok.injEq, Prod.mk.injEq] at h
    simp [← h.1]
  | cons b rest ih =>
    intro d st d2 st2 h
    rw [processDayBlocks] at h
    cases hp : processRows cfg d 0 st b with
    | error e => rw [hp] at h; simp at h
    | ok st1 =>
      rw [hp] at h
      have := ih (d + 1) st1 d2 st2 h
      simp [this]
      omega

/-- The day loop touches only the cache keys of the days it visits. -/
theorem processDayBlocks_frame (cfg : Config) :
    ∀ (blocks : List (List LessonTag)) (d : Nat) (st st2 : LoopSt) (d2 : Nat),
    processDayBlocks cfg d st blocks = .ok (d2, st2) →
    ∀ k, k < d ∨ d + blocks.length ≤ k → dictGet st2.cache k = dictGet st.cache k := by
  intro blocks
  induction blocks with
  | nil =>
    intro d st st2 d2 h k hk
    simp only [processDayBlocks, Except.ok.injEq, Prod.mk.injEq] at h
    rw [← h.2]
  | cons b rest ih =>
    intro d st st2 d2 h k hk
    rw [processDayBlocks] at h
    cases hp : processRows cfg d 0 st b with
    | error e => rw [hp] at h; simp at h
    | ok st1 =>
      rw [hp] at h
      have hk2 : k ≠ d := by
        simp only [List.length_cons] at hk
        omega
      calc dictGet st2.cache k = dictGet st1.cache k := by
            refine ih (d + 1) st1 st2 d2 h k ?_
            simp only [List.length_cons] at hk
            omega
        _ = dictGet st.cache k := processRows_frame cfg d b 0 st st1 hp k hk2

/-- Re-running the day loop on its own output cache reproduces that cache,
provided each block's first row survives the filter. -/
theorem processDayBlocks_idem (cfg : Config) :
    ∀ (blocks : List (List LessonTag)) (d : Nat) (c : Cache) (ov : Bool)
      (d2 : Nat) (c2 : Cache) (ov2 : Bool),
    (∀ b ∈ blocks, firstRowKeeps cfg b = true) →
    processDayBlocks cfg d ⟨c, ov⟩ blocks = .ok (d2, ⟨c2, ov2⟩) →
    processDayBlocks cfg d ⟨c2, ov⟩ blocks = .ok (d2, ⟨c2, ov2⟩) := by
  intro blocks
  induction blocks with
  | nil =>
    intro d c ov d2 c2 ov2 _ h
    simp only [processDayBlocks, Except.ok.injEq, Prod.mk.injEq, LoopSt.mk.injEq] at h
    obtain ⟨h1, h2, h3⟩ := h
    subst h1
    subst h2
    subst h3
    rfl
  | cons b rest ih =>
    intro d c ov d2 c2 ov2 hb h
    have hbfirst : firstRowKeeps cfg b = true := hb b (List.mem_cons_self b rest)
    have hbrest : ∀ x ∈ rest, firstRowKeeps cfg x = true := fun x hx =>
      hb x (List.mem_cons_of_mem b hx)
    rw [processDayBlocks] at h
    rcases processRows_day_sim cfg d b hbfirst ov c c2 with
      ⟨e, g1, g2⟩ | ⟨hnil, g1, g2⟩ | ⟨evs2, ovx, g1, g2⟩
    · rw [g1] at h
      simp at h
    · rw [g1] at h
      rw [processDayBlocks, g2]
      exact ih (d + 1) c ov d2 c2 ov2 hbrest h
    · rw [g1] at h
      have hget : dictGet c2 d = some evs2 := by
        have hfr := processDayBlocks_frame cfg rest (d + 1) ⟨dictSet c d evs2, ovx⟩
          ⟨c2, ov2⟩ d2 h d (Or.inl (by omega))
        simpa [dictGet_dictSet_self] using hfr
      have hset : dictSet c2 d evs2 = c2 := dictSet_self c2 d evs2 hget
      rw [processDayBlocks, g2, hset]
      exact ih (d + 1) (dictSet c d evs2) ovx d2 c2 ov2 hbrest h

/-- One successful week moves the cursor forward and touches only cache
keys between the incoming and outgoing cursor. -/
theorem processWeek_bounds (cfg : Config) (d : Nat) (c : Cache)
    (blocks : List (List LessonTag)) (d2 : Nat) (c2 : Cache)
    (h : processWeek cfg d c blocks = .ok (d2, c2)) :
    d ≤ d2 ∧ ∀ k, k < d ∨ d2 ≤ k → dictGet c2 k = dictGet c k := by
  cases blocks with
  | nil =>
    simp only [processWeek, Except.ok.injEq, Prod.mk.injEq] at h
    constructor
    · omega
    · intro k _
      rw [← h.2]
  | cons b rest =>
    rw [processWeek] at h
    cases hp : processDayBlocks cfg d ⟨c, false⟩ (b :: rest) with
    | error e => rw [hp] at h; simp at h
    | ok p =>
      rcases p with ⟨d3, st3⟩
      rw [hp] at h
      simp only [Except.ok.injEq, Prod.mk.injEq] at h
      have hlen := processDayBlocks_len cfg (b :: rest) d ⟨c, false⟩ d3 st3 hp
      constructor
      · omega
      · intro k hk
        have : dictGet st3.cache k = dictGet c k := by
          refine processDayBlocks_frame cfg (b :: rest) d ⟨c, false⟩ st3 d3 hp k ?_
          rcases hk with hk | hk
          · exact Or.inl hk
          · right
            omega
        rw [← h.2, this]

/-- A non-200 response breaks the week loop: the responses after it are
never consumed. -/
theorem runCycle_break (cfg : Config) :
    ∀ (ws1 rest : List Response) (d : Nat) (c : Cache),
    runCycle cfg d c (ws1 ++ Response.failure :: rest) = runCycle cfg d c ws1 := by
  intro ws1
  induction ws1 with
  | nil => intro rest d c; rfl
  | cons w ws ih =>
    intro rest d c
    cases w with
    | failure => rfl
    | success days =>
      simp only [List.cons_append, runCycle]
      cases processWeek cfg d c days with
      | error e => rfl
      | ok p => exact ih rest p.1 p.2

/-- A cycle moves the cursor forward and leaves every cache key outside the
visited date range untouched. -/
theorem runCycle_frame (cfg : Config) :
    ∀ (ws : List Response) (d : Nat) (c : Cache) (d2 : Nat) (c2 : Cache),
    runCycle cfg d c ws = .ok (d2, c2) →
    d ≤ d2 ∧ ∀ k, k < d ∨ d2 ≤ k → dictGet c2 k = dictGet c k := by
  intro ws
  induction ws with
  | nil =>
    intro d c d2 c2 h
    simp only [runCycle, Except.ok.injEq, Prod.mk.injEq] at h
    exact ⟨by omega, fun k _ => by rw [← h.2]⟩
  | cons w rest ih =>
    intro d c d2 c2 h
    cases w with
    | failure =>
      simp only [runCycle, Except.ok.injEq, Prod.mk.injEq] at h
      exact ⟨by omega, fun k _ => by rw [← h.2]⟩
    | success days =>
      rw [runCycle] at h
      cases hp : processWeek cfg d c days with
      | error e => rw [hp] at h; simp at h
      | ok p =>
        rcases p with ⟨d3, c3⟩
        rw [hp] at h
        have hw := processWeek_bounds cfg d c days d3 c3 hp
        have hr := ih d3 c3 d2 c2 h
        constructor
        · omega
        · intro k hk
          have h1 : dictGet c2 k = dictGet c3 k := by
            refine hr.2 k ?_
            rcases hk with hk | hk
            · left; omega
            · right; exact hk
          have h2 : dictGet c3 k = dictGet c k := by
            refine hw.2 k ?_
            rcases hk with hk | hk
            · left; exact hk
            · right; omega
          rw [h1, h2]

/-! ## Helper lemmas: JSON round trip -/

/-- Decoding inverts encoding on a single event. -/
theorem decodeEvent_eventToJson (e : CalendarEventJSON) :
    decodeEvent (eventToJson e) = .ok e := by
  rcases e with ⟨n, b, en, st, l, ds, x⟩
  cases x <;> rfl

/-- Decoding inverts encoding on a list of events. -/
theorem decodeList_map (evs : List CalendarEventJSON) :
    decodeList (evs.map eventToJson) = .ok evs := by
  induction evs with
  | nil => rfl
  | cons e rest ih => simp [decodeList, decodeEvent_eventToJson, ih]

/-- Decoding inverts encoding on the whole mapping. -/
theorem decodeEntries_map (m : JCache) :
    decodeEntries (m.map (fun p => (p.1, Json.arr (p.2.map eventToJson)))) = .ok m := by
  induction m with
  | nil => rfl
  | cons kv rest ih => simp [decodeEntries, decodeList_map, ih]

/-! ## Claim C1 -/

/-- Claim C1 counterexample: with the option enabled and a week holding two
English lessons (matching teacher, not page-cancelled) on two different days,
the second day's first English lesson is NOT overridden: it keeps status
CONFIRMED, refuting "the cancellation override ... resets for each new day
... on a week with English lessons on two different days each day's first
English lesson is overridden". -/
theorem c1_counterexample :
    (dictGet (c1week false false) 1).map (fun evs => evs.map (fun e => e.status)) =
      some ["CONFIRMED"] := by decide

/-- Claim C1 as amended: the override is applied at most once per fetched
week and resets per week, not per day. In a week with one English lesson
(matching teacher) on each of two days, the first day's lesson is forced to
CANCELLED whatever its page marker `b1`, the second day's lesson keeps its
page-derived status `b2`; and across two fetched weeks the override applies
again in the second week. -/
theorem c1_week_scoped_override (b1 b2 : Bool) :
    (dictGet (c1week b1 b2) 0).map (fun evs => evs.map (fun e => e.status)) =
      some ["CANCELLED"] ∧
    (dictGet (c1week b1 b2) 1).map (fun evs => evs.map (fun e => e.status)) =
      some [if b2 then "CANCELLED" else "CONFIRMED"] ∧
    (dictGet c1twoWeeks 0).map (fun evs => evs.map (fun e => e.status)) =
      some ["CANCELLED"] ∧
    (dictGet c1twoWeeks 7).map (fun evs => evs.map (fun e => e.status)) =
      some ["CANCELLED"] := by
  cases b1 <;> cases b2 <;> decide

/-! ## Claim C2 -/

/-- Claim C2 evaluation at the failing input: a day block whose document
index 0 row is a filtered English row and whose index 1 row is retained,
over a cache holding a stale entry for the day. The retained first lesson
gets no travel-time tag (`none`) and the stale event survives — the day
entry is NOT rebuilt, contradicting the claim (which matches the spec's
stated intent; spec §9 flags the code's behavior as a probable defect). -/
theorem c2_code_bug_eval :
    (match c2run with
     | .ok st => (dictGet st.cache 0).map
         (fun evs => evs.map (fun e => (e.name, e.x_apple_travel_time)))
     | .error _ => none)
    = some [("stale", none), ("Математика", none)] := by decide

/-! ## Claim C3 -/

/-- Claim C3 counterexample: a week whose markup holds seven day blocks,
entered on a Monday (ordinal 0), leaves the cursor on ordinal 14 — the
Monday after next — not the next Monday (7), refuting "the cursor equals
exactly the next week's Monday ... regardless of how many day blocks (zero,
some, or seven)". -/
theorem c3_counterexample :
    processWeek cfg2 0 [] (List.replicate 7 []) = .ok (14, []) ∧ (14 : Nat) ≠ 7 := by
  decide

/-- Claim C3 as amended: for a week entered on a Monday, with zero to six
day blocks the cursor after the week equals the next Monday (input + 7);
with exactly seven day blocks the final weekday snap overshoots to input
+ 14; and in the zero-day-block case the cache is unmodified. -/
theorem c3_cursor_advance (cfg : Config) (d : Nat) (blocks : List (List LessonTag))
    (d2 : Nat) (c c2 : Cache) (hmon : d % 7 = 0)
    (h : processWeek cfg d c blocks = .ok (d2, c2)) :
    (blocks.length ≤ 6 → d2 = d + 7) ∧
    (blocks.length = 7 → d2 = d + 14) ∧
    (blocks = [] → c2 = c) := by
  cases blocks with
  | nil =>
    simp only [processWeek, Except.ok.injEq, Prod.mk.injEq] at h
    refine ⟨fun _ => by omega, fun hc => by simp at hc, fun _ => by rw [← h.2]⟩
  | cons b rest =>
    rw [processWeek] at h
    cases hp : processDayBlocks cfg d ⟨c, false⟩ (b :: rest) with
    | error e => rw [hp] at h; simp at h
    | ok p =>
      rcases p with ⟨d3, st3⟩
      rw [hp] at h
      simp only [Except.ok.injEq, Prod.mk.injEq] at h
      have hlen := processDayBlocks_len cfg (b :: rest) d ⟨c, false⟩ d3 st3 hp
      refine ⟨fun hle => ?_, fun heq => ?_, fun hnil => by simp at hnil⟩
      · omega
      · omega

/-- Claim C3 witness: the amended theorem at a concrete one-day-block week
entered on Monday ordinal 0. -/
theorem c3_witness :
    (0 : Nat) % 7 = 0 ∧ processWeek cfg2 0 [] [[]] = .ok (7, []) ∧ (7 : Nat) = 0 + 7 :=
  ⟨rfl, by decide, (c3_cursor_advance cfg2 0 [[]] 7 [] [] rfl (by decide)).1 (by decide)⟩

/-! ## Claim C4 -/

/-- Claim C4 counterexample: a week whose single day block starts with a
filtered English row violates idempotence — the retained row is appended
without the index-0 reset, so feeding the same markup twice duplicates the
event (entry grows from one event to two), refuting "for every week markup". -/
theorem c4_counterexample :
    c4cache2 ≠ c4cache1 ∧
    (dictGet c4cache1 0).map List.length = some 1 ∧
    (dictGet c4cache2 0).map List.length = some 2 := by decide

/-- Claim C4 as amended: feeding the same week markup in two consecutive
cycles is idempotent on the cache provided every day block's row at document
index 0 survives the English-teacher filter (so each nonempty block's
processing starts with the full rebuild of its day's entry). -/
theorem c4_rebuild_idempotent (cfg : Config) (d : Nat) (c : Cache)
    (blocks : List (List LessonTag)) (d1 : Nat) (c1 : Cache)
    (hb : ∀ b ∈ blocks, firstRowKeeps cfg b = true)
    (h : processWeek cfg d c blocks = .ok (d1, c1)) :
    processWeek cfg d c1 blocks = .ok (d1, c1) := by
  cases blocks with
  | nil =>
    simp only [processWeek, Except.ok.injEq, Prod.mk.injEq] at h
    obtain ⟨h1, h2⟩ := h
    subst h1
    subst h2
    rfl
  | cons b rest =>
    rw [processWeek] at h
    cases hp : processDayBlocks cfg d ⟨c, false⟩ (b :: rest) with
    | error e => rw [hp] at h; simp at h
    | ok p =>
      rcases p with ⟨d2, st2⟩
      rcases st2 with ⟨cc, ovv⟩
      rw [hp] at h
      simp only [Except.ok.injEq, Prod.mk.injEq] at h
      obtain ⟨hd, hc⟩ := h
      subst hc
      subst hd
      have hidem := processDayBlocks_idem cfg (b :: rest) d c false d2 cc ovv hb hp
      rw [processWeek, hidem]

/-- Claim C4 witness: the amended idempotence applied at a concrete
well-formed week (one day block, one retained row). -/
theorem c4_witness :
    processWeek cfg2 0 c4witCache [[normalRow]] = .ok (7, c4witCache) :=
  c4_rebuild_idempotent cfg2 0 [] [[normalRow]] 7 c4witCache (by decide) (by decide)

/-! ## Claim C5 -/

/-- Claim C5: `normalize_text` is a pure total function satisfying the
spec's test vectors — `"a\nb" ↦ "ab"`, twenty spaces plus `"x" ↦ "x"`,
`"a  b" ↦ "ab"`, `"a   b" ↦ "a b"` (one space survives a three-space run
under a single non-overlapping left-to-right pass) — and its output never
contains a line feed or carriage return. -/
theorem c5_normalize_text :
    normalize_text "a\nb" = "ab" ∧
    normalize_text (String.mk (List.replicate 20 ' ') ++ "x") = "x" ∧
    normalize_text "a  b" = "ab" ∧
    normalize_text "a   b" = "a b" ∧
    ∀ t : String, (normalize_text t).toList.contains '\n' = false ∧
      (normalize_text t).toList.contains '\r' = false := by
  refine ⟨by decide, by decide, by decide, by decide, ?_⟩
  intro t
  have key : ∀ ch : Char, ch ∈ (normalize_text t).toList →
      ch ∈ pyReplace (pyReplace t.toList [ '\n' ] []) [ '\r' ] [] := by
    intro ch h
    unfold normalize_text at h
    simp only [String.toList] at h ⊢
    exact mem_of_mem_pyReplaceF ch _ _ _ (mem_of_mem_pyReplaceF ch _ _ _ h)
  constructor
  · rw [Bool.eq_false_iff]
    intro hc
    have hmem : '\n' ∈ (normalize_text t).toList := by
      simpa using hc
    have h2 := key _ hmem
    have h3 := mem_of_mem_pyReplaceF _ _ _ _ h2
    exact not_mem_pyReplaceF_single '\n' _ _ (Nat.le_refl _) h3
  · rw [Bool.eq_false_iff]
    intro hc
    have hmem : '\r' ∈ (normalize_text t).toList := by
      simpa using hc
    have h2 := key _ hmem
    exact not_mem_pyReplaceF_single '\r' _ _ (Nat.le_refl _) h2

/-! ## Claim C6 -/

/-- Claim C6: saving any mapping from date strings to event records holding
only the defined fields and then loading it back returns the original
mapping — the persisted cache round-trips losslessly. -/
theorem c6_save_load_round_trip (m : JCache) :
    loadCalendarJson (some (saveCalendarJson m)) = .ok m := by
  simp [loadCalendarJson, saveCalendarJson, decodeCache, decodeEntries_map]

/-! ## Claim C7 -/

/-- Claim C7: a non-200 fetch on week k stops the cycle — the run over the
full response list equals the run over the responses before the failure —
and the resulting cache agrees with the incoming cache on every date outside
the range actually visited, so later weeks' days are present only if carried
over unchanged from a prior cycle; the cache so produced is what the code
then persists. -/
theorem c7_fetch_failure_partial_persist (cfg : Config) (d : Nat) (c : Cache)
    (ws1 rest : List Response) :
    runCycle cfg d c (ws1 ++ Response.failure :: rest) = runCycle cfg d c ws1 ∧
    ∀ d2 c2, runCycle cfg d c ws1 = .ok (d2, c2) →
      ∀ k, k < d ∨ d2 ≤ k → dictGet c2 k = dictGet c k :=
  ⟨runCycle_break cfg ws1 rest d c,
   fun d2 c2 h k hk => (runCycle_frame cfg ws1 d c d2 c2 h).2 k hk⟩

/-- Claim C7 witness: one successful week, then a failure, then a week that
is never fetched; the day 20 entry of the persisted cache is untouched. -/
theorem c7_witness :
    runCycle cfg2 0 [] ([Response.success [[normalRow]]] ++
        Response.failure :: [Response.success [[engRowB false]]]) =
      runCycle cfg2 0 [] [Response.success [[normalRow]]] ∧
    dictGet c7res 20 = dictGet ([] : Cache) 20 :=
  have h := c7_fetch_failure_partial_persist cfg2 0 [] [Response.success [[normalRow]]]
    [Response.success [[engRowB false]]]
  ⟨h.1, h.2 7 c7res (by decide) 20 (Or.inr (by decide))⟩

/-! ## Claim C8 -/

/-- Claim C8 counterexample: content that parses as a JSON array is
"persisted-storage content", yet `load_calendar_json` raises
(`.items()` on a list — an `AttributeError` the function does not catch)
instead of returning a mapping, refuting "for every persisted-storage
content, load returns a mapping without raising". -/
theorem c8_counterexample :
    loadCalendarJson (some (Json.arr [])) =
      .error "AttributeError: no attribute items" := rfl

/-- Claim C8 as amended: load returns the empty mapping without raising when
the storage file is absent (it is first created empty) or its contents are
unparsable as JSON (`JSONDecodeError` is caught); but content that parses as
JSON without being an object of event lists — e.g. a top-level array —
raises an uncaught error instead of recovering. -/
theorem c8_load_recovery :
    loadCalendarJson none = .ok [] ∧
    ∀ xs : List Json, loadCalendarJson (some (Json.arr xs)) =
      .error "AttributeError: no attribute items" :=
  ⟨rfl, fun _ => rfl⟩

/-! ## Claim C9 -/

/-- Claim C9: when a day block's document index 0 row is discarded by the
English-teacher filter and the day's date has no entry in the cache,
appending the next retained row's event raises `KeyError` — the append is
guarded only by the index-0 reset, so processing such a day is not total. -/
theorem c9_missing_key_error (c : Cache) (d : Nat) (h : dictGet c d = none) :
    processRows cfg2 d 0 ⟨c, false⟩ [engOtherRow, normalRow] = .error (.key d) := by
  have h1 : rowEvent cfg2 d 0 false engOtherRow = .ok none := rfl
  have h2 : rowEvent cfg2 d 1 false normalRow = .ok (some (normalRowEvent d, false)) := rfl
  simp only [processRows, processRow, h1, h2]
  simp [h]

/-- Claim C9 witness: the `KeyError` at the empty cache and day ordinal 0. -/
theorem c9_witness :
    dictGet ([] : Cache) 0 = none ∧
    processRows cfg2 0 0 ⟨[], false⟩ [engOtherRow, normalRow] = .error (.key 0) :=
  ⟨rfl, c9_missing_key_error [] 0 rfl⟩

/-! ## Claim C10 -/

/-- Claim C10: the IS_CANCEL_FIRST_ENGLISH_LESSON flag is converted with
Python `bool()`, so the unset variable and the empty string give `False`,
while every non-empty string — including "False" and "0" — gives `True`. -/
theorem c10_env_bool_conversion :
    isCancelFirstEnglishLessonFlag none = .ok false ∧
    isCancelFirstEnglishLessonFlag (some "") = .ok false ∧
    isCancelFirstEnglishLessonFlag (some "False") = .ok true ∧
    isCancelFirstEnglishLessonFlag (some "0") = .ok true ∧
    ∀ s : String, s ≠ "" → isCancelFirstEnglishLessonFlag (some s) = .ok true := by
  refine ⟨rfl, rfl, rfl, rfl, ?_⟩
  intro s hs
  simp [isCancelFirstEnglishLessonFlag, set_env_var, pyBool, hs]

/-- Claim C10 witness: the non-empty-string clause at the string "x". -/
theorem c10_witness :
    ("x" : String) ≠ "" ∧ isCancelFirstEnglishLessonFlag (some "x") = .ok true :=
  ⟨by decide, c10_env_bool_conversion.2.2.2.2 "x" (by decide)⟩

end SpbuCal
